import Mathlib

/-!
Verification of the task-orchestration core: the plan-state machine
(`agent_update_plan`, `agent_advance_phase`), the instruction-mutator hook
(`StepPromptHook.on_tool_end`), and the file/messaging/search tool logic
(`file_read`, `file_replace_text`, `message_ask_user`, `info_search_web`).

Strings are modelled as `List Char`; the Python string primitives used by the
source (`str.count`, `str.replace`, the `in` substring test, `str.splitlines`,
`"sep".join`) are given executable definitions with Python semantics.
-/

set_option maxRecDepth 8000

/-- Character list of a string literal; the representation of Python strings. -/
def chars (s : String) : List Char := s.data

/-- Fuel-driven scanner for Python `s.count(pat)` with a non-empty pattern:
left-to-right, non-overlapping occurrences.  The fuel is always instantiated
with `s.length`, which the scanner never exhausts when `pat` is non-empty. -/
def countOccAux (pat : List Char) : Nat → List Char → Nat
  | _, [] => 0
  | 0, _ :: _ => 0
  | f + 1, c :: rest =>
    if pat.isPrefixOf (c :: rest) then 1 + countOccAux pat f ((c :: rest).drop pat.length)
    else countOccAux pat f rest

/-- Python `s.count(pat)`: number of non-overlapping occurrences of `pat` in `s`;
Python counts `s.length + 1` occurrences of the empty pattern. -/
def countOcc (pat s : List Char) : Nat :=
  if pat = [] then s.length + 1 else countOccAux pat s.length s

/-- Fuel-driven scanner for Python `s.replace(pat, rep)` with a non-empty
pattern: every non-overlapping occurrence, scanning left to right. -/
def replaceAllAux (pat rep : List Char) : Nat → List Char → List Char
  | _, [] => []
  | 0, s => s
  | f + 1, c :: rest =>
    if pat.isPrefixOf (c :: rest) then rep ++ replaceAllAux pat rep f ((c :: rest).drop pat.length)
    else c :: replaceAllAux pat rep f rest

/-- Python `s.replace(pat, rep)`.  For the empty pattern Python inserts `rep`
at every position, including both ends. -/
def replaceAll (s pat rep : List Char) : List Char :=
  if pat = [] then rep ++ s.foldr (fun c acc => c :: (rep ++ acc)) []
  else replaceAllAux pat rep s.length s

/-- Python substring membership `pat in s`. -/
def inStr (pat : List Char) : List Char → Bool
  | [] => pat.isEmpty
  | c :: rest => pat.isPrefixOf (c :: rest) || inStr pat rest

/-- `noEarlyOccB pat u` holds when no occurrence of `pat` inside `u ++ pat`
starts strictly before the final, appended copy of `pat`. -/
def noEarlyOccB (pat u : List Char) : Bool :=
  (List.range u.length).all fun i => ! pat.isPrefixOf ((u ++ pat).drop i)


/-- A plan phase, mirroring the pydantic model Phase of tools.py. -/
structure Phase where
  id : Int
  title : List Char
  required_capabilities : List Char
deriving DecidableEq

/-- One entry of the scheduled-task ledger appended by agent_schedule_task.
The parsed datetime is kept as the textual timestamp; its internal structure
plays no role in any property proved here. -/
structure ScheduledTask where
  task_description : List Char
  schedule_type : List Char
  start_time : List Char
deriving DecidableEq

/-- The mutable dictionary _agent_state of tools.py. -/
structure AgentState where
  current_phase_id : Option Int
  goal : Option (List Char)
  phases : List Phase
  completed : Bool
  scheduled_tasks : List ScheduledTask
deriving DecidableEq

/-- The initial value of _agent_state. -/
def initialAgentState : AgentState :=
  { current_phase_id := none, goal := none, phases := [], completed := false,
    scheduled_tasks := [] }

/-- Python list indexing, with negative-index wrap-around; `none` is an
IndexError. -/
def pyIndex (l : List α) (i : Int) : Option α :=
  if i < 0 then
    if 0 ≤ (l.length : Int) + i then l.get? ((l.length : Int) + i).toNat else none
  else l.get? i.toNat

/-- Decimal rendering of an integer, Python str(int). -/
def pyStrInt (n : Int) : List Char := (toString n).data

/-- Python str() of an optional string: None renders as the text None. -/
def showPyOptStr : Option (List Char) → List Char
  | none => chars ("None")
  | some s => s

/-- Python str() of an optional int. -/
def showPyOptInt : Option Int → List Char
  | none => chars ("None")
  | some n => pyStrInt n

/-- The ASCII single-quote character used by pydantic renderings. -/
def quoteCh : Char := Char.ofNat 39

/-- pydantic str() of a Phase value, as interpolated into the hook f-strings. -/
def strPhase (p : Phase) : List Char :=
  chars ("id=") ++ pyStrInt p.id ++ chars (" title=") ++ (quoteCh :: p.title ++ [quoteCh]) ++
    chars (" required_capabilities=") ++ (quoteCh :: p.required_capabilities ++ [quoteCh])

/-- pydantic repr() of a Phase value, as interpolated into the repr of a list. -/
def reprPhase (p : Phase) : List Char :=
  chars ("Phase(id=") ++ pyStrInt p.id ++ chars (", title=") ++ (quoteCh :: p.title ++ [quoteCh]) ++
    chars (", required_capabilities=") ++ (quoteCh :: p.required_capabilities ++ [quoteCh]) ++ chars (")")

/-- Python repr() of the phase list. -/
def reprPhases (l : List Phase) : List Char :=
  chars ("[") ++ List.intercalate (chars (", ")) (l.map reprPhase) ++ chars ("]")

/-- The phase-clause template of StepPromptHook.on_tool_end for phase id `i`:
both the removed previous clause (i = phase_id - 1) and the appended current
clause (i = phase_id) instantiate this template. -/
def clauseOf (g : Option (List Char)) (ph : Phase) (i : Int) : List Char :=
  chars ("You are in phase ") ++ pyStrInt i ++ chars (", with the goal of ") ++
    showPyOptStr g ++ chars (" and the current phase is ") ++ strPhase ph ++
    chars (". If this is empty, then create a plan first. If it is not empty, then continue with the current phase, and consider this as your main task.")

/-- Clause construction including the list access phases[i-1]; `none` is the
IndexError Python raises while evaluating the f-string. -/
def clause (g : Option (List Char)) (ps : List Phase) (i : Int) : Option (List Char) :=
  (pyIndex ps (i - 1)).map fun ph => clauseOf g ph i

/-- The separator inserted in front of an appended clause. -/
def sepNl : List Char := chars ("\n\n")

/-- The removal step of StepPromptHook.on_tool_end: when phase_id > 1 the
clause for phase_id - 1 is built (via phases[phase_id - 2]) and, when it is a
substring of the instruction text, replaced by the empty string; `none` is the
IndexError raised while the f-string evaluates. -/
def removePrevClause (st : AgentState) (p : Int) (instructions : List Char) :
    Option (List Char) :=
  if 1 < p then
    match clause st.goal st.phases (p - 1) with
    | none => none
    | some last_phase =>
      if inStr last_phase instructions then
        some (replaceAll instructions last_phase [])
      else some instructions
  else some instructions

/-- StepPromptHook.on_tool_end of run.py.  Arguments: the shared agent state,
the hook attribute self.current_phase_id, and agent.instructions.  The result
is the pair (new self.current_phase_id, new agent.instructions); `none` means
the Python code raises (TypeError from comparing None > 1, or an IndexError
from phases[...]).  The instruction text is never partially updated before a
raise, so `none` carries no text. -/
def on_tool_end_main (st : AgentState) (p : Int) (instructions : List Char) :
    Option (Option Int × List Char) :=
  match removePrevClause st p instructions with
  | none => none
  | some instr2 =>
    match clause st.goal st.phases p with
    | none => none
    | some current_phase => some (some p, instr2 ++ sepNl ++ current_phase)

def on_tool_end (st : AgentState) (hookPhase : Option Int) (instructions : List Char) :
    Option (Option Int × List Char) :=
  if hookPhase = st.current_phase_id then some (hookPhase, instructions)
  else
    match st.current_phase_id with
    | none => none
    | some p => on_tool_end_main st p instructions

/-- The snapshot string returned by agent_update_plan. -/
def updatePlanResponse (st : AgentState) : List Char :=
  chars ("Task plan updated:\n<task_plan>\nGoal:\n") ++ showPyOptStr st.goal ++
    chars ("\n\nPhases:\n") ++ reprPhases st.phases ++ chars ("\n\nCurrent phase:\n") ++
    showPyOptInt st.current_phase_id ++ chars ("\n</task_plan>\n")

/-- agent_update_plan of tools.py: each argument is applied only when present,
in source order, and the snapshot is rendered from the final state. -/
def agent_update_plan (st : AgentState) (current_phase_id : Option Int)
    (goal : Option (List Char)) (phases : Option (List Phase)) : AgentState × List Char :=
  let st1 := match current_phase_id with
    | none => st
    | some c => { st with current_phase_id := some c }
  let st2 := match goal with
    | none => st1
    | some g => { st1 with goal := some g }
  let st3 := match phases with
    | none => st2
    | some ps => { st2 with phases := ps }
  (st3, updatePlanResponse st3)

/-- The snapshot assembled by agent_advance_phase; in the source it is
evaluated after current_phase_id has been overwritten with to_phase_id, so the
field labelled Previous phase prints the already-updated value. -/
def advanceResponse (st : AgentState) (to_phase_id : Int) : List Char :=
  chars ("Advanced to the next phase:\n<task_plan>\nGoal:\n") ++ showPyOptStr st.goal ++
    chars ("\n\nPhases:\n") ++ reprPhases st.phases ++ chars ("\n\nPrevious phase: ") ++
    showPyOptInt st.current_phase_id ++ chars ("\n\nNext phase: ") ++ pyStrInt to_phase_id ++
    chars ("\n</task_plan>\n<best_practices>\n[Relevant best practices for the new phase]\n</best_practices>\n<related_knowledge>\n[Relevant knowledge for the new phase]\n</related_knowledge>")

/-- agent_advance_phase of tools.py: the post-call state, and either the
response string or the ValueError message raised before any mutation. -/
def agent_advance_phase (st : AgentState) (from_phase_id to_phase_id : Int) :
    AgentState × Except (List Char) (List Char) :=
  if st.current_phase_id ≠ some from_phase_id then
    (st, Except.error (chars ("Cannot advance: agent is in phase ") ++
      showPyOptInt st.current_phase_id ++ chars (", not ") ++ pyStrInt from_phase_id ++
      chars (".")))
  else
    let st2 := { st with current_phase_id := some to_phase_id }
    (st2, Except.ok (advanceResponse st2 to_phase_id))

/-- Whether an Except value is a success. -/
def isOkE : Except ε α → Bool
  | Except.ok _ => true
  | Except.error _ => false

/-- Worker for Python str.splitlines restricted to the newline characters that
occur in the texts handled here (LF only). -/
def splitlinesAux : List Char → List Char → List (List Char)
  | [], acc => [acc.reverse]
  | c :: rest, acc =>
    if c = '\n' then
      match rest with
      | [] => [acc.reverse]
      | _ :: _ => acc.reverse :: splitlinesAux rest []
    else splitlinesAux rest (c :: acc)

/-- Python content.splitlines() (LF line terminators): the empty string has no
lines, and a trailing newline does not produce a trailing empty line. -/
def pySplitlines : List Char → List (List Char)
  | [] => []
  | c :: rest => splitlinesAux (c :: rest) []

/-- file_read of tools.py, reduced to its pure slicing logic: given the file
content and the optional line range, return the content (possibly sliced) or
the ValueError message for an invalid range.  Path resolution, existence
checking and the actual read are filesystem effects outside this model. -/
def file_read (content : List Char) (start_line end_line : Option Int) :
    Except (List Char) (List Char) :=
  if start_line ≠ none ∨ end_line ≠ none then
    if start_line.getD 0 < 0 ∨
        end_line.getD ((pySplitlines content).length : Int) >
          ((pySplitlines content).length : Int) ∨
        start_line.getD 0 ≥ end_line.getD ((pySplitlines content).length : Int) then
      Except.error (chars ("Invalid line range: start_line=") ++
        showPyOptInt start_line ++ chars (", end_line=") ++ showPyOptInt end_line ++
        chars (", file has ") ++ pyStrInt ((pySplitlines content).length : Int) ++
        chars (" lines"))
    else
      Except.ok (List.intercalate (chars ("\n"))
        (((pySplitlines content).drop (start_line.getD 0).toNat).take
          ((end_line.getD ((pySplitlines content).length : Int)).toNat -
            (start_line.getD 0).toNat)))
  else Except.ok content

/-- file_replace_text of tools.py, reduced to its pure content transformation:
given the current file content and the two argument strings, either the
ValueError message for an ambiguous match or the new content that is written
back.  Reading and writing the file are filesystem effects outside this
model. -/
def file_replace_text (content old_text new_text : List Char) :
    Except (List Char) (List Char) :=
  if countOcc old_text content > 1 then
    Except.error (chars ("Error: ") ++ (quoteCh :: old_text ++ [quoteCh]) ++
      chars (" appears multiple times in the file. Please provide a more specific old_text to avoid ambiguity."))
  else Except.ok (replaceAll content old_text new_text)

/-- Python truthiness of an optional list: None and the empty list are falsy. -/
def pyTruthyOptList : Option (List α) → Bool
  | none => false
  | some l => ! l.isEmpty

/-- message_ask_user of tools.py, reduced to its prompt construction: the
result is the prompt string handed to input(), or the ValueError message.
The attachments argument only feeds a print and the blocking input() call is
an external effect, so both are outside this model. -/
def message_ask_user (text : List Char) (options : Option (List (List Char))) :
    Except (List Char) (List Char) :=
  let prompt := chars ("[Ask] ") ++ text ++ chars ("\n")
  if pyTruthyOptList options then
    if ! pyTruthyOptList options then
      Except.error (chars ("Options list must be non-empty if provided"))
    else
      Except.ok (prompt ++ List.intercalate (chars (" / ")) (options.getD []) ++ chars ("\n> "))
  else Except.ok (prompt ++ chars ("> "))

/-- A value of the request-parameter mapping built by info_search_web. -/
inductive ParamVal where
  | s (v : List Char)
  | i (v : Int)
deriving DecidableEq

/-- The date_restrict_map dictionary of info_search_web. -/
def date_restrict_map : List (List Char × List Char) :=
  [(chars ("past_hour"), chars ("h1")),
   (chars ("past_day"), chars ("d1")),
   (chars ("past_week"), chars ("w1")),
   (chars ("past_month"), chars ("m1")),
   (chars ("past_year"), chars ("y1"))]

/-- The params dictionary that info_search_web hands to requests.get, in
insertion order.  The HTTP request itself, the API credentials read from the
environment, and the non-200 error path are external effects outside this
model; parameter construction is total. -/
def info_search_web_params (query date_range : List Char) (num : Int)
    (api_key cx : List Char) : List (List Char × ParamVal) :=
  let params := [(chars ("q"), ParamVal.s query), (chars ("num"), ParamVal.i num),
    (chars ("key"), ParamVal.s api_key), (chars ("cx"), ParamVal.s cx)]
  if date_range ≠ chars ("all") then
    match List.lookup date_range date_restrict_map with
    | some v => params ++ [(chars ("dateRestrict"), ParamVal.s v)]
    | none => params
  else params

/-- Iterated separator prefix left behind by k clause replacements. -/
def seps : Nat → List Char
  | 0 => []
  | k + 1 => seps k ++ sepNl

/-- The clause text for the (1-based) phase number k of the phase list; total
stand-in for `clause` on in-range phase numbers. -/
def clauseN (g : Option (List Char)) (ps : List Phase) (k : Nat) : List Char :=
  clauseOf g (ps.getD (k - 1) { id := 0, title := [], required_capabilities := [] }) (k : Int)

/-- N consecutive phase changes, each followed by a firing of the hook: the
plan state's current_phase_id is set to 1, 2, ..., N in turn (goal and phase
list fixed), and on_tool_end runs after each change, starting from the freshly
constructed hook (self.current_phase_id = None) and the base instruction
text. -/
def runHookSeq (g : Option (List Char)) (ps : List Phase) (base : List Char) :
    Nat → Option (Option Int × List Char)
  | 0 => some (none, base)
  | k + 1 =>
    match runHookSeq g ps base k with
    | none => none
    | some (h, t) =>
      on_tool_end
        { current_phase_id := some ((k + 1 : Nat) : Int), goal := g, phases := ps,
          completed := false, scheduled_tasks := [] } h t

/-- Concrete goal used by the witness scenarios. -/
def wGoal : Option (List Char) := some (chars ("write report"))

/-- Concrete two-phase plan used by the witness scenarios. -/
def wPhases : List Phase :=
  [{ id := 1, title := chars ("research"), required_capabilities := chars ("web-search") },
   { id := 2, title := chars ("deliver"), required_capabilities := chars ("messaging") }]

/-- Concrete plan state in phase 1 used by the witness scenarios. -/
def wState1 : AgentState :=
  { current_phase_id := some 1, goal := wGoal, phases := wPhases, completed := false,
    scheduled_tasks := [] }

/-- The instruction text after the hook first fires in wState1. -/
def wText1 : List Char := chars ("BASE") ++ sepNl ++ clauseN wGoal wPhases 1

theorem countOccAux_congr (pat : List Char) (hp : pat ≠ []) :
    ∀ f g s, s.length ≤ f → s.length ≤ g → countOccAux pat f s = countOccAux pat g s := by
  intro f
  induction f with
  | zero =>
    intro g s hf _
    have hs : s = [] := List.eq_nil_of_length_eq_zero (Nat.le_zero.mp hf)
    subst hs
    cases g <;> rfl
  | succ f ih =>
    intro g s hf hg
    cases s with
    | nil => cases g <;> rfl
    | cons c rest =>
      cases g with
      | zero => simp at hg
      | succ g' =>
        have hplen : 1 ≤ pat.length := by
          cases pat with
          | nil => exact absurd rfl hp
          | cons a l => simp
        simp only [countOccAux]
        by_cases hpre : pat.isPrefixOf (c :: rest)
        · simp only [hpre, if_pos]
          have hdlen : ((c :: rest).drop pat.length).length ≤ f := by
            simp only [List.length_drop, List.length_cons]
            simp only [List.length_cons] at hf
            omega
          have hdlen' : ((c :: rest).drop pat.length).length ≤ g' := by
            simp only [List.length_drop, List.length_cons]
            simp only [List.length_cons] at hg
            omega
          rw [ih g' _ hdlen hdlen']
        · simp only [hpre, if_neg, Bool.false_eq_true, not_false_iff]
          have h1 : rest.length ≤ f := by simp only [List.length_cons] at hf; omega
          have h2 : rest.length ≤ g' := by simp only [List.length_cons] at hg; omega
          exact ih g' rest h1 h2

theorem replaceAllAux_congr (pat rep : List Char) (hp : pat ≠ []) :
    ∀ f g s, s.length ≤ f → s.length ≤ g →
      replaceAllAux pat rep f s = replaceAllAux pat rep g s := by
  intro f
  induction f with
  | zero =>
    intro g s hf _
    have hs : s = [] := List.eq_nil_of_length_eq_zero (Nat.le_zero.mp hf)
    subst hs
    cases g <;> rfl
  | succ f ih =>
    intro g s hf hg
    cases s with
    | nil => cases g <;> rfl
    | cons c rest =>
      cases g with
      | zero => simp at hg
      | succ g' =>
        have hplen : 1 ≤ pat.length := by
          cases pat with
          | nil => exact absurd rfl hp
          | cons a l => simp
        simp only [replaceAllAux]
        by_cases hpre : pat.isPrefixOf (c :: rest)
        · simp only [hpre, if_pos]
          have hdlen : ((c :: rest).drop pat.length).length ≤ f := by
            simp only [List.length_drop, List.length_cons]
            simp only [List.length_cons] at hf
            omega
          have hdlen' : ((c :: rest).drop pat.length).length ≤ g' := by
            simp only [List.length_drop, List.length_cons]
            simp only [List.length_cons] at hg
            omega
          rw [ih g' _ hdlen hdlen']
        · simp only [hpre, if_neg, Bool.false_eq_true, not_false_iff]
          have h1 : rest.length ≤ f := by simp only [List.length_cons] at hf; omega
          have h2 : rest.length ≤ g' := by simp only [List.length_cons] at hg; omega
          rw [ih g' rest h1 h2]

theorem countOcc_eq_aux (pat s : List Char) (hp : pat ≠ []) :
    countOcc pat s = countOccAux pat s.length s := by
  unfold countOcc
  rw [if_neg hp]

theorem replaceAll_eq_aux (pat rep s : List Char) (hp : pat ≠ []) :
    replaceAll s pat rep = replaceAllAux pat rep s.length s := by
  unfold replaceAll
  rw [if_neg hp]

theorem length_pos_of_ne_nil (pat : List Char) (hp : pat ≠ []) : 1 ≤ pat.length := by
  cases pat with
  | nil => exact absurd rfl hp
  | cons a l => simp

theorem countOcc_nil (pat : List Char) (hp : pat ≠ []) : countOcc pat [] = 0 := by
  rw [countOcc_eq_aux pat [] hp]
  rfl

theorem countOcc_cons_pos (pat : List Char) (hp : pat ≠ []) (c : Char) (rest : List Char)
    (hpre : pat.isPrefixOf (c :: rest)) :
    countOcc pat (c :: rest) = 1 + countOcc pat ((c :: rest).drop pat.length) := by
  have hplen := length_pos_of_ne_nil pat hp
  rw [countOcc_eq_aux pat _ hp, countOcc_eq_aux pat _ hp]
  simp only [List.length_cons, countOccAux, hpre, if_pos]
  congr 1
  exact countOccAux_congr pat hp rest.length ((c :: rest).drop pat.length).length _
    (by simp only [List.length_drop, List.length_cons]; omega) (le_refl _)

theorem countOcc_cons_neg (pat : List Char) (hp : pat ≠ []) (c : Char) (rest : List Char)
    (hpre : ¬ pat.isPrefixOf (c :: rest)) :
    countOcc pat (c :: rest) = countOcc pat rest := by
  rw [countOcc_eq_aux pat _ hp, countOcc_eq_aux pat _ hp]
  simp only [List.length_cons, countOccAux]
  rw [if_neg hpre]

theorem replaceAll_nil (pat rep : List Char) (hp : pat ≠ []) : replaceAll [] pat rep = [] := by
  rw [replaceAll_eq_aux pat rep [] hp]
  rfl

theorem replaceAll_cons_pos (pat rep : List Char) (hp : pat ≠ []) (c : Char) (rest : List Char)
    (hpre : pat.isPrefixOf (c :: rest)) :
    replaceAll (c :: rest) pat rep = rep ++ replaceAll ((c :: rest).drop pat.length) pat rep := by
  have hplen := length_pos_of_ne_nil pat hp
  rw [replaceAll_eq_aux pat rep _ hp, replaceAll_eq_aux pat rep _ hp]
  simp only [List.length_cons, replaceAllAux, hpre, if_pos]
  congr 1
  exact replaceAllAux_congr pat rep hp rest.length ((c :: rest).drop pat.length).length _
    (by simp only [List.length_drop, List.length_cons]; omega) (le_refl _)

theorem replaceAll_cons_neg (pat rep : List Char) (hp : pat ≠ []) (c : Char) (rest : List Char)
    (hpre : ¬ pat.isPrefixOf (c :: rest)) :
    replaceAll (c :: rest) pat rep = c :: replaceAll rest pat rep := by
  rw [replaceAll_eq_aux pat rep _ hp, replaceAll_eq_aux pat rep _ hp]
  simp only [List.length_cons, replaceAllAux]
  rw [if_neg hpre]

theorem isPrefixOf_self (l : List Char) : l.isPrefixOf l = true :=
  List.isPrefixOf_iff_prefix.mpr (List.prefix_refl l)

theorem noEarlyOccB_head (pat : List Char) (c : Char) (u : List Char)
    (h : noEarlyOccB pat (c :: u) = true) : ¬ pat.isPrefixOf ((c :: u) ++ pat) := by
  have h0 := (List.all_eq_true.mp h) 0 (List.mem_range.mpr (by simp))
  simp only [List.drop_zero] at h0
  intro hcontra
  rw [hcontra] at h0
  simp at h0

theorem noEarlyOccB_tail (pat : List Char) (c : Char) (u : List Char)
    (h : noEarlyOccB pat (c :: u) = true) : noEarlyOccB pat u = true := by
  apply List.all_eq_true.mpr
  intro i hi
  have hi' := List.mem_range.mp hi
  have hstep := (List.all_eq_true.mp h) (i + 1)
    (List.mem_range.mpr (by simp only [List.length_cons]; omega))
  simpa [List.drop_succ_cons] using hstep

/-- Removing the pattern from a text whose only occurrence of the pattern is a
final appended copy deletes exactly that copy. -/
theorem replaceAll_append_self (pat u : List Char) (hp : pat ≠ [])
    (h : noEarlyOccB pat u = true) : replaceAll (u ++ pat) pat [] = u := by
  induction u with
  | nil =>
    simp only [List.nil_append]
    cases pat with
    | nil => exact absurd rfl hp
    | cons d p =>
      rw [replaceAll_cons_pos (d :: p) [] hp d p (isPrefixOf_self _)]
      simp only [List.nil_append]
      rw [List.drop_length]
      exact replaceAll_nil (d :: p) [] hp
  | cons c u ih =>
    have hhead := noEarlyOccB_head pat c u h
    rw [List.cons_append, replaceAll_cons_neg pat [] hp c (u ++ pat)
      (by simpa using hhead)]
    rw [ih (noEarlyOccB_tail pat c u h)]

/-- A text whose only occurrence of the pattern is a final appended copy
contains the pattern exactly once. -/
theorem countOcc_append_self (pat u : List Char) (hp : pat ≠ [])
    (h : noEarlyOccB pat u = true) : countOcc pat (u ++ pat) = 1 := by
  induction u with
  | nil =>
    simp only [List.nil_append]
    cases pat with
    | nil => exact absurd rfl hp
    | cons d p =>
      rw [countOcc_cons_pos (d :: p) hp d p (isPrefixOf_self _)]
      rw [List.drop_length]
      rw [countOcc_nil (d :: p) hp]
  | cons c u ih =>
    have hhead := noEarlyOccB_head pat c u h
    rw [List.cons_append, countOcc_cons_neg pat hp c (u ++ pat) (by simpa using hhead)]
    exact ih (noEarlyOccB_tail pat c u h)

/-- Python membership: a text with an appended copy of the pattern contains it. -/
theorem inStr_append_self (pat u : List Char) : inStr pat (u ++ pat) = true := by
  induction u with
  | nil =>
    cases pat with
    | nil => rfl
    | cons d p =>
      simp only [List.nil_append, inStr]
      rw [isPrefixOf_self]
      rfl
  | cons c u ih =>
    simp only [List.cons_append, inStr]
    rw [show u.append pat = u ++ pat from rfl, ih]
    simp

theorem countOccAux_zero_replaceAllAux (pat rep : List Char) :
    ∀ f s, countOccAux pat f s = 0 → replaceAllAux pat rep f s = s := by
  intro f
  induction f with
  | zero => intro s _; cases s <;> rfl
  | succ f ih =>
    intro s hz
    cases s with
    | nil => rfl
    | cons c rest =>
      by_cases hpre : pat.isPrefixOf (c :: rest)
      · exfalso
        simp only [countOccAux, hpre, if_pos] at hz
        omega
      · simp only [countOccAux] at hz
        rw [if_neg hpre] at hz
        simp only [replaceAllAux]
        rw [if_neg hpre, ih rest hz]

/-- Python replace is the identity on a text that does not contain the pattern. -/
theorem replaceAll_of_countOcc_zero (pat rep s : List Char)
    (h : countOcc pat s = 0) : replaceAll s pat rep = s := by
  have hp : pat ≠ [] := by
    intro hnil
    rw [hnil] at h
    simp [countOcc] at h
  rw [replaceAll_eq_aux pat rep s hp]
  exact countOccAux_zero_replaceAllAux pat rep s.length s
    (by rw [countOcc_eq_aux pat s hp] at h; exact h)

theorem get?_eq_some_getD (l : List α) (n : Nat) (d : α) (h : n < l.length) :
    l.get? n = some (l.getD n d) := by
  induction l generalizing n with
  | nil => simp at h
  | cons a t ih =>
    cases n with
    | zero => rfl
    | succ m =>
      simp only [List.get?, List.getD, List.get?_cons_succ]
      have := ih m (by simpa using h)
      simpa [List.getD] using this

theorem get?_none_of_le (l : List α) (n : Nat) (h : l.length ≤ n) : l.get? n = none := by
  induction l generalizing n with
  | nil => rfl
  | cons a t ih =>
    cases n with
    | zero => simp at h
    | succ m => exact ih m (by simpa using h)

theorem clause_eq_clauseN (g : Option (List Char)) (ps : List Phase) (k : Nat)
    (h1 : 1 ≤ k) (h2 : k ≤ ps.length) : clause g ps (k : Int) = some (clauseN g ps k) := by
  unfold clause pyIndex
  rw [if_neg (by omega : ¬ ((k : Int) - 1 < 0))]
  have ht : ((k : Int) - 1).toNat = k - 1 := by omega
  rw [ht, get?_eq_some_getD ps (k - 1)
    { id := 0, title := [], required_capabilities := [] } (by omega)]
  rfl

theorem clause_none_of_big (g : Option (List Char)) (ps : List Phase) (k : Nat)
    (h1 : 1 ≤ k) (h2 : ps.length < k) : clause g ps (k : Int) = none := by
  unfold clause pyIndex
  rw [if_neg (by omega : ¬ ((k : Int) - 1 < 0))]
  have ht : ((k : Int) - 1).toNat = k - 1 := by omega
  rw [ht, get?_none_of_le ps (k - 1) (by omega)]
  rfl

theorem clauseOf_ne_nil (g : Option (List Char)) (ph : Phase) (i : Int) :
    clauseOf g ph i ≠ [] := by
  unfold clauseOf
  intro hcontra
  exact absurd (List.append_eq_nil.mp hcontra).2 (by decide)

theorem clauseN_ne_nil (g : Option (List Char)) (ps : List Phase) (k : Nat) :
    clauseN g ps k ≠ [] := clauseOf_ne_nil g _ (k : Int)

theorem lookup_cons_match (key k1 : List Char) (v1 : β) (rest : List (List Char × β))
    (h : (key == k1) = true) : List.lookup key ((k1, v1) :: rest) = some v1 := by
  simp [List.lookup, h]

theorem lookup_cons_mismatch (key k1 : List Char) (v1 : β) (rest : List (List Char × β))
    (h : (key == k1) = false) : List.lookup key ((k1, v1) :: rest) = List.lookup key rest := by
  simp [List.lookup, h]

/-- C8: agent_update_plan leaves the completed flag and the scheduled-task
ledger unchanged for every combination of supplied arguments, and each of the
three updatable fields is overwritten exactly when its argument is present and
kept otherwise. -/
theorem agent_update_plan_frame (st : AgentState) (c : Option Int)
    (g : Option (List Char)) (p : Option (List Phase)) :
    (agent_update_plan st c g p).1.completed = st.completed ∧
    (agent_update_plan st c g p).1.scheduled_tasks = st.scheduled_tasks ∧
    (agent_update_plan st c g p).1.current_phase_id = c.or st.current_phase_id ∧
    (agent_update_plan st c g p).1.goal = g.or st.goal ∧
    (agent_update_plan st c g p).1.phases = p.getD st.phases := by
  cases c <;> cases g <;> cases p <;>
    simp [agent_update_plan, Option.or, Option.getD]

/-- The dateRestrict key differs from every base-parameter key, so a lookup
for it passes over the four base parameters. -/
theorem lookup_dateRestrict_base_append (q k c : List Char) (n : Int)
    (tail : List (List Char × ParamVal)) :
    List.lookup (chars ("dateRestrict"))
        ([(chars ("q"), ParamVal.s q), (chars ("num"), ParamVal.i n),
          (chars ("key"), ParamVal.s k), (chars ("cx"), ParamVal.s c)] ++ tail) =
      List.lookup (chars ("dateRestrict")) tail := by
  simp only [List.cons_append, List.nil_append]
  rw [lookup_cons_mismatch _ _ _ _ (by decide), lookup_cons_mismatch _ _ _ _ (by decide),
    lookup_cons_mismatch _ _ _ _ (by decide), lookup_cons_mismatch _ _ _ _ (by decide)]

theorem lookup_dateRestrict_base (q k c : List Char) (n : Int) :
    List.lookup (chars ("dateRestrict"))
        [(chars ("q"), ParamVal.s q), (chars ("num"), ParamVal.i n),
         (chars ("key"), ParamVal.s k), (chars ("cx"), ParamVal.s c)] = none := by
  rw [lookup_cons_mismatch _ _ _ _ (by decide), lookup_cons_mismatch _ _ _ _ (by decide),
    lookup_cons_mismatch _ _ _ _ (by decide), lookup_cons_mismatch _ _ _ _ (by decide)]
  rfl

/-- C10: the request parameters of info_search_web carry a dateRestrict entry
exactly for the five recognized date_range values, mapped to h1, d1, w1, m1,
y1; for the value all and for every unrecognized value no dateRestrict entry
is attached, and parameter construction is total (never fails). -/
theorem info_search_web_dateRestrict (q d : List Char) (n : Int) (k c : List Char) :
    List.lookup (chars ("dateRestrict")) (info_search_web_params q d n k c) =
      (if d = chars ("past_hour") then some (ParamVal.s (chars ("h1")))
       else if d = chars ("past_day") then some (ParamVal.s (chars ("d1")))
       else if d = chars ("past_week") then some (ParamVal.s (chars ("w1")))
       else if d = chars ("past_month") then some (ParamVal.s (chars ("m1")))
       else if d = chars ("past_year") then some (ParamVal.s (chars ("y1")))
       else none) := by
  unfold info_search_web_params
  by_cases hall : d = chars ("all")
  · rw [if_neg (by simpa using hall)]
    subst hall
    rw [lookup_dateRestrict_base]
    rw [if_neg (by decide), if_neg (by decide), if_neg (by decide), if_neg (by decide),
      if_neg (by decide)]
  · rw [if_pos hall]
    by_cases h1 : d = chars ("past_hour")
    · subst h1
      rw [show List.lookup (chars ("past_hour")) date_restrict_map =
        some (chars ("h1")) from by decide]
      rw [lookup_dateRestrict_base_append, lookup_cons_match _ _ _ _ (by decide), if_pos rfl]
    · by_cases h2 : d = chars ("past_day")
      · subst h2
        rw [show List.lookup (chars ("past_day")) date_restrict_map =
          some (chars ("d1")) from by decide]
        rw [lookup_dateRestrict_base_append, lookup_cons_match _ _ _ _ (by decide),
          if_neg (by decide), if_pos rfl]
      · by_cases h3 : d = chars ("past_week")
        · subst h3
          rw [show List.lookup (chars ("past_week")) date_restrict_map =
            some (chars ("w1")) from by decide]
          rw [lookup_dateRestrict_base_append, lookup_cons_match _ _ _ _ (by decide),
            if_neg (by decide), if_neg (by decide), if_pos rfl]
        · by_cases h4 : d = chars ("past_month")
          · subst h4
            rw [show List.lookup (chars ("past_month")) date_restrict_map =
              some (chars ("m1")) from by decide]
            rw [lookup_dateRestrict_base_append, lookup_cons_match _ _ _ _ (by decide),
              if_neg (by decide), if_neg (by decide), if_neg (by decide), if_pos rfl]
          · by_cases h5 : d = chars ("past_year")
            · subst h5
              rw [show List.lookup (chars ("past_year")) date_restrict_map =
                some (chars ("y1")) from by decide]
              rw [lookup_dateRestrict_base_append, lookup_cons_match _ _ _ _ (by decide),
                if_neg (by decide), if_neg (by decide), if_neg (by decide), if_neg (by decide),
                if_pos rfl]
            · have hmap : List.lookup d date_restrict_map = none := by
                unfold date_restrict_map
                rw [lookup_cons_mismatch _ _ _ _ (beq_eq_false_iff_ne.mpr h1),
                  lookup_cons_mismatch _ _ _ _ (beq_eq_false_iff_ne.mpr h2),
                  lookup_cons_mismatch _ _ _ _ (beq_eq_false_iff_ne.mpr h3),
                  lookup_cons_mismatch _ _ _ _ (beq_eq_false_iff_ne.mpr h4),
                  lookup_cons_mismatch _ _ _ _ (beq_eq_false_iff_ne.mpr h5)]
                rfl
              rw [hmap, if_neg h1, if_neg h2, if_neg h3, if_neg h4, if_neg h5]
              exact lookup_dateRestrict_base q k c n

/-- C2: agent_advance_phase raises PhaseMismatch exactly when from_phase_id
differs from the current phase id; on failure the state is unchanged
(validation precedes any mutation), and on success current_phase_id is set to
to_phase_id with no requirement that to_phase_id = from_phase_id + 1. -/
theorem advance_phase_validates (st : AgentState) (f t : Int) :
    (isOkE (agent_advance_phase st f t).2 = true ↔ st.current_phase_id = some f) ∧
    (st.current_phase_id ≠ some f → (agent_advance_phase st f t).1 = st) ∧
    (st.current_phase_id = some f →
      (agent_advance_phase st f t).1 = { st with current_phase_id := some t }) := by
  by_cases h : st.current_phase_id = some f
  · unfold agent_advance_phase
    rw [if_neg (not_not_intro h)]
    exact ⟨by simp [isOkE, h], fun hc => absurd h hc, fun _ => rfl⟩
  · unfold agent_advance_phase
    rw [if_pos h]
    exact ⟨by simp [isOkE, h], fun _ => rfl, fun hc => absurd hc h⟩

/-- C2 witness: with current phase 3, advancing from 2 fails and leaves the
phase at 3; advancing from 3 to 4 succeeds and sets the phase to 4; advancing
from 3 straight to 10 also succeeds (no successor check). -/
theorem advance_phase_validates_witness :
    isOkE (agent_advance_phase
      { initialAgentState with current_phase_id := some 3 } 2 3).2 = false ∧
    (agent_advance_phase
      { initialAgentState with current_phase_id := some 3 } 2 3).1.current_phase_id = some 3 ∧
    (agent_advance_phase
      { initialAgentState with current_phase_id := some 3 } 3 4).1.current_phase_id = some 4 ∧
    isOkE (agent_advance_phase
      { initialAgentState with current_phase_id := some 3 } 3 10).2 = true := by
  refine ⟨?_, ?_, ?_, ?_⟩
  · have h := (advance_phase_validates
      { initialAgentState with current_phase_id := some 3 } 2 3).1
    cases hb : isOkE (agent_advance_phase
        { initialAgentState with current_phase_id := some 3 } 2 3).2 with
    | false => rfl
    | true => exact absurd (h.mp hb) (by decide)
  · have h := (advance_phase_validates
      { initialAgentState with current_phase_id := some 3 } 2 3).2.1 (by decide)
    rw [h]
  · have h := (advance_phase_validates
      { initialAgentState with current_phase_id := some 3 } 3 4).2.2 (by decide)
    rw [h]
  · exact (advance_phase_validates
      { initialAgentState with current_phase_id := some 3 } 3 10).1.mpr (by decide)

/-- C6 evaluated at the failing input: with current phase 3, a successful
agent_advance_phase(3, 4) returns a snapshot whose Previous phase field shows
4 (the new to_phase_id) rather than 3 (the pre-call phase), because the source
formats the snapshot only after overwriting current_phase_id. -/
theorem advance_snapshot_misreports_previous :
    inStr (chars ("Previous phase: 4"))
      ((agent_advance_phase { initialAgentState with current_phase_id := some 3 } 3 4).2.toOption.getD [])
      = true ∧
    inStr (chars ("Previous phase: 3"))
      ((agent_advance_phase { initialAgentState with current_phase_id := some 3 } 3 4).2.toOption.getD [])
      = false ∧
    inStr (chars ("Next phase: 4"))
      ((agent_advance_phase { initialAgentState with current_phase_id := some 3 } 3 4).2.toOption.getD [])
      = true := by decide

/-- C7 evaluated at the failing input: an explicitly supplied empty option
list does not make message_ask_user fail — the emptiness guard is nested
under a truthiness test that an empty list never passes — while a non-empty
option list renders the options joined by a slash separator. -/
theorem ask_user_empty_options_succeeds :
    message_ask_user (chars ("Proceed?")) (some []) =
      Except.ok (chars ("[Ask] Proceed?\n> ")) ∧
    message_ask_user (chars ("Proceed?")) (some [chars ("yes"), chars ("no")]) =
      Except.ok (chars ("[Ask] Proceed?\nyes / no\n> ")) := ⟨rfl, rfl⟩

/-- C3 counterexample: a search string with zero occurrences does not make
file_replace_text fail — the source only raises when the count exceeds one. -/
theorem replace_text_zero_matches_succeeds :
    countOcc (chars ("z")) (chars ("a\nb\n")) = 0 ∧
    isOkE (file_replace_text (chars ("a\nb\n")) (chars ("z")) (chars ("x"))) = true := by decide

/-- C3 amended: file_replace_text fails with AmbiguousReplacement exactly when
old_text occurs more than once; with zero occurrences it succeeds and leaves
the content unchanged, and with exactly one occurrence (more generally, at
most one) it succeeds with every occurrence of old_text replaced by
new_text. -/
theorem file_replace_text_spec (content old_text new_text : List Char) :
    (isOkE (file_replace_text content old_text new_text) = true ↔
      countOcc old_text content ≤ 1) ∧
    (countOcc old_text content = 0 →
      file_replace_text content old_text new_text = Except.ok content) ∧
    (countOcc old_text content ≤ 1 →
      file_replace_text content old_text new_text =
        Except.ok (replaceAll content old_text new_text)) := by
  unfold file_replace_text
  by_cases h : countOcc old_text content > 1
  · rw [if_pos h]
    refine ⟨by simp [isOkE]; omega, fun h0 => by omega, fun h1 => by omega⟩
  · rw [if_neg h]
    refine ⟨by simp [isOkE]; omega, ?_, fun _ => rfl⟩
    intro h0
    rw [replaceAll_of_countOcc_zero old_text new_text content h0]

/-- C3 witness, at the spec's own example: two occurrences fail, one
occurrence succeeds and produces the replaced content. -/
theorem file_replace_text_spec_witness :
    isOkE (file_replace_text (chars ("a\na\n")) (chars ("a")) (chars ("x"))) = false ∧
    file_replace_text (chars ("a\nb\n")) (chars ("a")) (chars ("x")) =
      Except.ok (chars ("x\nb\n")) := by
  constructor
  · have h := (file_replace_text_spec (chars ("a\na\n")) (chars ("a")) (chars ("x"))).1
    cases hb : isOkE (file_replace_text (chars ("a\na\n")) (chars ("a")) (chars ("x"))) with
    | false => rfl
    | true => exact absurd (h.mp hb) (by decide)
  · have h := (file_replace_text_spec (chars ("a\nb\n")) (chars ("a")) (chars ("x"))).2.2
      (by decide)
    rw [h]
    rfl

/-- C5: when at least one of start_line and end_line is supplied, file_read
fails with InvalidRange exactly when, after defaulting start to 0 and end to
the line count, start < 0 or end > line_count or start >= end; otherwise it
returns the half-open slice [start, end) of the file's lines rejoined with
newlines. -/
theorem file_read_range_spec (content : List Char) (start_line end_line : Option Int)
    (hsup : start_line ≠ none ∨ end_line ≠ none) :
    (isOkE (file_read content start_line end_line) = false ↔
      (start_line.getD 0 < 0 ∨
       end_line.getD ((pySplitlines content).length : Int) >
         ((pySplitlines content).length : Int) ∨
       start_line.getD 0 ≥ end_line.getD ((pySplitlines content).length : Int))) ∧
    (¬ (start_line.getD 0 < 0 ∨
        end_line.getD ((pySplitlines content).length : Int) >
          ((pySplitlines content).length : Int) ∨
        start_line.getD 0 ≥ end_line.getD ((pySplitlines content).length : Int)) →
      file_read content start_line end_line =
        Except.ok (List.intercalate (chars ("\n"))
          (((pySplitlines content).drop (start_line.getD 0).toNat).take
            ((end_line.getD ((pySplitlines content).length : Int)).toNat -
              (start_line.getD 0).toNat)))) := by
  unfold file_read
  rw [if_pos hsup]
  by_cases hbad : (start_line.getD 0 < 0 ∨
      end_line.getD ((pySplitlines content).length : Int) >
        ((pySplitlines content).length : Int) ∨
      start_line.getD 0 ≥ end_line.getD ((pySplitlines content).length : Int))
  · rw [if_pos hbad]
    exact ⟨by simp [isOkE, hbad], fun hc => absurd hbad hc⟩
  · rw [if_neg hbad]
    exact ⟨by simp [isOkE, hbad], fun _ => rfl⟩

/-- C5 witness, at the spec's example: a five-line file with start_line = 3
and end_line = 2 fails the range check. -/
theorem file_read_range_spec_witness :
    isOkE (file_read (chars ("l1\nl2\nl3\nl4\nl5")) (some 3) (some 2)) = false := by
  have h := (file_read_range_spec (chars ("l1\nl2\nl3\nl4\nl5")) (some 3) (some 2)
    (Or.inl (by simp))).1
  exact h.mpr (by decide)

/-- A successful hook firing always leaves the hook attribute equal to the
plan state's current phase id. -/
theorem on_tool_end_fst (st : AgentState) (h : Option Int) (t : List Char)
    (r : Option Int × List Char) (hr : on_tool_end st h t = some r) :
    r.1 = st.current_phase_id := by
  unfold on_tool_end at hr
  by_cases heq : h = st.current_phase_id
  · rw [if_pos heq] at hr
    have hrt : (h, t) = r := by injection hr
    rw [← hrt]
    exact heq
  · rw [if_neg heq] at hr
    cases hc : st.current_phase_id with
    | none =>
      rw [hc] at hr
      exact absurd hr (by simp)
    | some p =>
      rw [hc] at hr
      change on_tool_end_main st p t = some r at hr
      unfold on_tool_end_main at hr
      cases hrem : removePrevClause st p t with
      | none =>
        rw [hrem] at hr
        exact absurd hr (by simp)
      | some instr2 =>
        rw [hrem] at hr
        cases hcl : clause st.goal st.phases p with
        | none =>
          rw [hcl] at hr
          exact absurd hr (by simp)
        | some cur =>
          rw [hcl] at hr
          have hrt : (some p, instr2 ++ sepNl ++ cur) = r := by injection hr
          rw [← hrt]

/-- C4: after a successful hook firing, firing the hook again with no
intervening change to the plan state is a no-op: the instruction text (and the
hook attribute) after the second firing are identical to those after the
first. -/
theorem hook_idempotent (st : AgentState) (h h' : Option Int) (t t' : List Char)
    (hfirst : on_tool_end st h t = some (h', t')) :
    on_tool_end st h' t' = some (h', t') := by
  have hfst : h' = st.current_phase_id := on_tool_end_fst st h t (h', t') hfirst
  unfold on_tool_end
  rw [if_pos hfst]

/-- C4 witness: a concrete first firing moves the state's phase 1 clause into
the text; a second firing leaves it untouched. -/
theorem hook_idempotent_witness :
    on_tool_end wState1 (some 1) wText1 = some (some 1, wText1) :=
  hook_idempotent wState1 none (some 1) (chars ("BASE")) wText1 (by decide)

theorem on_tool_end_main_isSome (st : AgentState) (p : Nat) (t : List Char) (hp : 1 ≤ p)
    (hle : p ≤ st.phases.length) : (on_tool_end_main st (p : Int) t).isSome = true := by
  have hclp : clause st.goal st.phases (p : Int) = some (clauseN st.goal st.phases p) :=
    clause_eq_clauseN st.goal st.phases p hp hle
  unfold on_tool_end_main removePrevClause
  by_cases h1p : 1 < (p : Int)
  · have hclprev : clause st.goal st.phases ((p : Int) - 1) =
        some (clauseN st.goal st.phases (p - 1)) := by
      have hcast : ((p : Int) - 1) = ((p - 1 : Nat) : Int) := by omega
      rw [hcast]
      exact clause_eq_clauseN st.goal st.phases (p - 1) (by omega) (by omega)
    rw [if_pos h1p, hclprev]
    by_cases hin : inStr (clauseN st.goal st.phases (p - 1)) t = true
    · simp [hclp, hin]
    · simp [hclp, hin]
  · rw [if_neg h1p]
    simp [hclp]

theorem on_tool_end_main_none (st : AgentState) (p : Nat) (t : List Char) (hp : 1 ≤ p)
    (hgt : st.phases.length < p) : on_tool_end_main st (p : Int) t = none := by
  have hclp : clause st.goal st.phases (p : Int) = none :=
    clause_none_of_big st.goal st.phases p hp hgt
  unfold on_tool_end_main removePrevClause
  by_cases h1p : 1 < (p : Int)
  · by_cases hpe : p = st.phases.length + 1
    · have hclprev : clause st.goal st.phases ((p : Int) - 1) =
          some (clauseN st.goal st.phases (p - 1)) := by
        have hcast : ((p : Int) - 1) = ((p - 1 : Nat) : Int) := by omega
        rw [hcast]
        exact clause_eq_clauseN st.goal st.phases (p - 1) (by omega) (by omega)
      rw [if_pos h1p, hclprev]
      by_cases hin : inStr (clauseN st.goal st.phases (p - 1)) t = true
      · simp [hclp, hin]
      · simp [hclp, hin]
    · have hclprev : clause st.goal st.phases ((p : Int) - 1) = none := by
        have hcast : ((p : Int) - 1) = ((p - 1 : Nat) : Int) := by omega
        rw [hcast]
        exact clause_none_of_big st.goal st.phases (p - 1) (by omega) (by omega)
      rw [if_pos h1p, hclprev]
  · rw [if_neg h1p]
    simp [hclp]

/-- C9: when the hook fires with a changed current phase id p >= 1, the clause
construction (which indexes phases[p-1], and phases[p-2] for the removal step,
with no bounds check) succeeds for every p up to the phase-list length, and
for every p beyond the phase-list length — a state reachable through
agent_update_plan, which never validates the id against the phase list — the
hook raises an unstructured IndexError instead of no-opping. -/
theorem hook_index_bounds (g : Option (List Char)) (ps : List Phase) (cm : Bool)
    (tk : List ScheduledTask) (p : Nat) (h : Option Int) (t : List Char)
    (hchange : h ≠ some (p : Int)) (hp : 1 ≤ p) :
    (p ≤ ps.length →
      (on_tool_end { current_phase_id := some (p : Int), goal := g, phases := ps,
                     completed := cm, scheduled_tasks := tk } h t).isSome = true) ∧
    (ps.length < p →
      on_tool_end { current_phase_id := some (p : Int), goal := g, phases := ps,
                    completed := cm, scheduled_tasks := tk } h t = none) := by
  have hcur :
      ({ current_phase_id := some (p : Int), goal := g, phases := ps,
         completed := cm, scheduled_tasks := tk } : AgentState).current_phase_id =
        some (p : Int) := rfl
  constructor
  · intro hle
    unfold on_tool_end
    rw [hcur, if_neg hchange]
    exact on_tool_end_main_isSome _ p t hp hle
  · intro hgt
    unfold on_tool_end
    rw [hcur, if_neg hchange]
    exact on_tool_end_main_none _ p t hp hgt

/-- C9 witness: with a two-phase plan, a changed phase id of 2 fires the hook
successfully, while a changed phase id of 5 makes it raise. -/
theorem hook_index_bounds_witness :
    (on_tool_end { current_phase_id := some 2, goal := wGoal, phases := wPhases,
                   completed := false, scheduled_tasks := [] }
        none (chars ("BASE"))).isSome = true ∧
    on_tool_end { current_phase_id := some 5, goal := wGoal, phases := wPhases,
                  completed := false, scheduled_tasks := [] }
        none (chars ("BASE")) = none := by
  constructor
  · exact (hook_index_bounds wGoal wPhases false [] 2 none (chars ("BASE"))
      (by decide) (by decide)).1 (by decide)
  · exact (hook_index_bounds wGoal wPhases false [] 5 none (chars ("BASE"))
      (by decide) (by decide)).2 (by decide)

theorem runHookSeq_zero (g : Option (List Char)) (ps : List Phase) (base : List Char) :
    runHookSeq g ps base 0 = some (none, base) := rfl

theorem runHookSeq_succ (g : Option (List Char)) (ps : List Phase) (base : List Char)
    (k : Nat) :
    runHookSeq g ps base (k + 1) =
      match runHookSeq g ps base k with
      | none => none
      | some (h, t) =>
        on_tool_end { current_phase_id := some ((k + 1 : Nat) : Int), goal := g,
                      phases := ps, completed := false, scheduled_tasks := [] } h t := rfl

/-- The closed form of the hook sequence: after k consecutive phase changes
the instruction text is the base text, k double-newline separators, and the
clause of the most recent phase — provided no clause occurs early in the
text it is removed from. -/
theorem runHookSeq_closed (g : Option (List Char)) (ps : List Phase) (base : List Char) :
    ∀ N, 1 ≤ N → N ≤ ps.length →
      (∀ j, 1 ≤ j → j ≤ N → noEarlyOccB (clauseN g ps j) (base ++ seps j) = true) →
      runHookSeq g ps base N =
        some (some (N : Int), (base ++ seps N) ++ clauseN g ps N) := by
  intro N
  induction N with
  | zero => intro h1; omega
  | succ k ih =>
    intro h1 hlen hne
    rcases Nat.eq_zero_or_pos k with hk0 | hkpos
    · subst hk0
      have hclq : clause g ps (1 : Int) = some (clauseN g ps 1) :=
        clause_eq_clauseN g ps 1 (le_refl 1) hlen
      have hstep : on_tool_end
          { current_phase_id := some ((0 + 1 : Nat) : Int), goal := g,
            phases := ps, completed := false, scheduled_tasks := [] } none base =
          some (some ((0 + 1 : Nat) : Int), (base ++ seps (0 + 1)) ++ clauseN g ps (0 + 1)) := by
        unfold on_tool_end
        rw [show ({ current_phase_id := some ((0 + 1 : Nat) : Int), goal := g,
                    phases := ps, completed := false, scheduled_tasks := [] }
            : AgentState).current_phase_id = some ((0 + 1 : Nat) : Int) from rfl]
        rw [if_neg (by simp)]
        change on_tool_end_main _ _ _ = _
        unfold on_tool_end_main removePrevClause
        rw [if_neg (by omega : ¬ (1 : Int) < ((0 + 1 : Nat) : Int))]
        simp [hclq, seps]
      rw [runHookSeq_succ, runHookSeq_zero]
      exact hstep
    · have hlenk : k ≤ ps.length := by omega
      have hnek : ∀ j, 1 ≤ j → j ≤ k → noEarlyOccB (clauseN g ps j) (base ++ seps j) = true :=
        fun j hj1 hj2 => hne j hj1 (by omega)
      have hin : inStr (clauseN g ps k) (base ++ (seps k ++ clauseN g ps k)) = true := by
        rw [← List.append_assoc]
        exact inStr_append_self (clauseN g ps k) (base ++ seps k)
      have hrep : replaceAll (base ++ (seps k ++ clauseN g ps k)) (clauseN g ps k) [] =
          base ++ seps k := by
        rw [← List.append_assoc]
        exact replaceAll_append_self (clauseN g ps k) (base ++ seps k) (clauseN_ne_nil g ps k)
          (hne k hkpos (by omega))
      have hclk : clause g ps ((k : Nat) : Int) = some (clauseN g ps k) :=
        clause_eq_clauseN g ps k hkpos hlenk
      have hclq : clause g ps ((k : Int) + 1) = some (clauseN g ps (k + 1)) := by
        have hcast : ((k : Int) + 1) = ((k + 1 : Nat) : Int) := by omega
        rw [hcast]
        exact clause_eq_clauseN g ps (k + 1) (by omega) hlen
      have hstep : on_tool_end
          { current_phase_id := some ((k + 1 : Nat) : Int), goal := g,
            phases := ps, completed := false, scheduled_tasks := [] } (some (k : Int))
          ((base ++ seps k) ++ clauseN g ps k) =
          some (some ((k + 1 : Nat) : Int), (base ++ seps (k + 1)) ++ clauseN g ps (k + 1)) := by
        unfold on_tool_end
        rw [show ({ current_phase_id := some ((k + 1 : Nat) : Int), goal := g,
                    phases := ps, completed := false, scheduled_tasks := [] }
            : AgentState).current_phase_id = some ((k + 1 : Nat) : Int) from rfl]
        rw [if_neg (by simp only [Option.some.injEq]; omega)]
        change on_tool_end_main _ _ _ = _
        unfold on_tool_end_main removePrevClause
        rw [if_pos (by omega : (1 : Int) < ((k + 1 : Nat) : Int))]
        rw [show (((k + 1 : Nat) : Int) - 1) = ((k : Nat) : Int) from by omega]
        rw [hclk]
        simp [hin, hrep, hclq, seps, List.append_assoc]
      rw [runHookSeq_succ, ih hkpos hlenk hnek]
      exact hstep

/-- C1: for every sequence of N consecutive phase changes (the plan state's
current phase id set to 1, 2, ..., N in turn, each change followed by a hook
firing), the run succeeds and the resulting instruction text contains exactly
one phase clause, namely the clause for the most recent phase N: that clause
occurs once and the clause of every other phase of the plan occurs zero
times.  The hypotheses state that the goal, titles and base text do not
accidentally embed a clause string: no clause occurs early in the text it is
removed from, and no foreign clause occurs in the final text. -/
theorem hook_single_clause_invariant (g : Option (List Char)) (ps : List Phase)
    (base : List Char) (N : Nat) (h1 : 1 ≤ N) (hlen : N ≤ ps.length)
    (hne : ∀ j, 1 ≤ j → j ≤ N → noEarlyOccB (clauseN g ps j) (base ++ seps j) = true)
    (hother : ∀ j, 1 ≤ j → j ≤ ps.length → j ≠ N →
      countOcc (clauseN g ps j) ((base ++ seps N) ++ clauseN g ps N) = 0) :
    runHookSeq g ps base N = some (some (N : Int), (base ++ seps N) ++ clauseN g ps N) ∧
    (∀ j, 1 ≤ j → j ≤ ps.length →
      countOcc (clauseN g ps j) ((base ++ seps N) ++ clauseN g ps N) =
        if j = N then 1 else 0) := by
  refine ⟨runHookSeq_closed g ps base N h1 hlen hne, ?_⟩
  intro j hj1 hj2
  by_cases hjN : j = N
  · subst hjN
    rw [if_pos rfl]
    exact countOcc_append_self (clauseN g ps j) (base ++ seps j) (clauseN_ne_nil g ps j)
      (hne j hj1 (le_refl j))
  · rw [if_neg hjN]
    exact hother j hj1 hj2 hjN

/-- C1 witness: two consecutive phase changes on the two-phase demo plan leave
exactly the phase-2 clause in the instruction text — the phase-1 clause occurs
zero times, the phase-2 clause once. -/
theorem hook_single_clause_invariant_witness :
    countOcc (clauseN wGoal wPhases 1)
      ((chars ("BASE") ++ seps 2) ++ clauseN wGoal wPhases 2) = 0 ∧
    countOcc (clauseN wGoal wPhases 2)
      ((chars ("BASE") ++ seps 2) ++ clauseN wGoal wPhases 2) = 1 ∧
    runHookSeq wGoal wPhases (chars ("BASE")) 2 =
      some (some 2, (chars ("BASE") ++ seps 2) ++ clauseN wGoal wPhases 2) := by
  have hmain := hook_single_clause_invariant wGoal wPhases (chars ("BASE")) 2
    (by decide) (by decide)
    (by
      intro j hj1 hj2
      interval_cases j
      · decide
      · decide)
    (by
      intro j hj1 hj2 hjne
      have hj2b : j ≤ 2 := by simpa [wPhases] using hj2
      interval_cases j
      · decide
      · exact absurd rfl hjne)
  refine ⟨?_, ?_, hmain.1⟩
  · have h := hmain.2 1 (by decide) (by decide)
    simpa using h
  · have h := hmain.2 2 (by decide) (by decide)
    simpa using h
